import Mathlib

/-!
Verification of the hybrid-retrieval question-answering core: a shallow
embedding of the intent router, score normalization and fusion, the
diversity reranker, the retriever and reasoning agents, and the citation
builder, translated from the Python sources
(`backend/rag/services.py`, `backend/core/domain/entities/chunk.py`,
`v3/document-qa-system/src/retrieval/hybrid_search.py`,
`v3/document-qa-system/src/retrieval/reranker.py`).

Python floats are embedded as exact rationals; Python strings as `String`
operating on their code points (`String.data`); dictionaries as
association lists; the external embedding provider, BM25 library and the
generative model as function parameters.  Stateful agent code becomes
explicit state passing on `AgentState`.
-/

namespace FileQA

/-! ## Data model -/

/-- A retrievable text chunk, as read by the retrieval pipeline from
documents in Ready status: `id`, `document_id`, the owning document title,
`index`, `page_number`, `text`.  The embedding vector stays behind the
similarity-score parameter of the search functions, so it is not a field
here. -/
structure Chunk where
  chunkId : Nat
  documentId : Nat
  documentTitle : String
  index : Nat
  pageNumber : Option Nat
  text : String
deriving DecidableEq

/-- The per-chunk dictionary the retriever agent stores in
`state["retrieved_chunks"]` (services.py, `_retriever_agent`). -/
structure RetrievedChunk where
  chunk_id : Nat
  document_id : Nat
  document_title : String
  chunk_index : Nat
  page_number : Option Nat
  text : String
  score : ℚ
deriving DecidableEq

/-- A citation dictionary as emitted by `_reasoning_agent`. -/
structure Citation where
  document_id : Nat
  document_title : String
  chunk_index : Nat
  page : Option Nat
  snippet : String
deriving DecidableEq

/-- The `AgentState` TypedDict threaded through the LangGraph workflow.
`metadata` is modelled as an association list of string diagnostics;
`document_content` is the optional extra key read by `_utility_agent`
(absent, i.e. empty, in the chat flow). -/
structure AgentState where
  query : String
  chat_history : List (String × String)
  intent : String
  retrieved_chunks : List RetrievedChunk
  answer : String
  citations : List Citation
  metadata : List (String × String)
  error : String
  document_content : String
deriving DecidableEq

/-- The dictionary returned by `process_query`. -/
structure RAGResponse where
  answer : String
  citations : List Citation
  metadata : List (String × String)
  error : String
deriving DecidableEq

/-! ## String helpers (Python `str.lower`, substring `in`, `capitalize`,
slicing) -/

/-- Does the second list occur as a prefix of the first. -/
def listStartsWith : List Char → List Char → Bool
  | _, [] => true
  | [], _ :: _ => false
  | h :: t, n :: m => h == n && listStartsWith t m

/-- Does `needle` occur contiguously inside `hay`: the model of the Python
substring test `needle in hay`. -/
def listContainsSub : List Char → List Char → Bool
  | [], needle => needle.isEmpty
  | h :: t, needle => listStartsWith (h :: t) needle || listContainsSub t needle

/-- Model of Python `str.lower` on the code points of a string
(non-ASCII letters, in particular the Persian keywords, are unaffected). -/
def strLower (s : String) : String :=
  String.mk (s.data.map Char.toLower)

/-- Model of the Python substring test `needle in hay`. -/
def strContains (hay needle : String) : Bool :=
  listContainsSub hay.data needle.data

/-- Model of Python `str.capitalize`. -/
def capitalizeStr (s : String) : String :=
  match s.data with
  | [] => ""
  | c :: rest => String.mk (c.toUpper :: rest.map Char.toLower)

/-! ## Intent router (`_router_agent`, services.py lines 138-158) -/

def summarizeKeywords : List String :=
  ["summarize", "summary", "خلاصه", "خلاصه کن", "خلاصه‌اش کن"]

def translateKeywords : List String :=
  ["translate", "ترجمه", "به انگلیسی", "به فارسی", "translation"]

def checklistKeywords : List String :=
  ["checklist", "چک‌لیست", "چک لیست", "list", "tasks", "کارها"]

/-- Python `any(keyword in query for keyword in keywords)`. -/
def matchesAny (query : String) (keywords : List String) : Bool :=
  keywords.any (fun k => strContains query k)

/-- The router agent: classify the lower-cased query against the four
keyword sets in fixed order SUMMARIZE, TRANSLATE, CHECKLIST, default
RAG_QUERY (named ANSWER in the design document), and record the intent in
the metadata. -/
def routerAgent (st : AgentState) : AgentState :=
  let q := strLower st.query
  let intent :=
    if matchesAny q summarizeKeywords then "SUMMARIZE"
    else if matchesAny q translateKeywords then "TRANSLATE"
    else if matchesAny q checklistKeywords then "CHECKLIST"
    else "RAG_QUERY"
  { st with intent := intent, metadata := st.metadata ++ [("intent", intent)] }

/-- The conditional edge chosen after the router (`_route_decision`). -/
def routeDecision (st : AgentState) : String :=
  if st.intent = "RAG_QUERY" then "retriever"
  else if st.intent = "SUMMARIZE" ∨ st.intent = "TRANSLATE" ∨ st.intent = "CHECKLIST" then "utility"
  else "end"

/-! ## Score normalization and fusion (`_combine_and_rerank`,
services.py lines 478-522; same algorithm as
`HybridRetriever._normalize_scores` and `_combine_results` in v3) -/

/-- Min-max normalization of one candidate list (`normalize_scores`):
returns the association list from chunk id to normalized score, in list
order.  When the maximum equals the minimum every candidate gets exactly 1,
otherwise the affine map to the unit interval is applied. -/
def normalizeScores : List (Chunk × ℚ) → List (Nat × ℚ)
  | [] => []
  | p :: rest =>
    if (rest.map Prod.snd).foldl max p.2 = (rest.map Prod.snd).foldl min p.2 then
      (p :: rest).map (fun q => (q.1.chunkId, (1 : ℚ)))
    else
      (p :: rest).map (fun q =>
        (q.1.chunkId, (q.2 - (rest.map Prod.snd).foldl min p.2) /
          ((rest.map Prod.snd).foldl max p.2 - (rest.map Prod.snd).foldl min p.2)))

/-- Dictionary access `scores.get(chunk_id, 0)` on the association list. -/
def lookupScore (scores : List (Nat × ℚ)) (id : Nat) : ℚ :=
  match scores.find? (fun p => p.1 == id) with
  | some p => p.2
  | none => 0

/-- The union of the chunk ids of both lists, in combination order: the
first list in order, then the ids only present in the second list (the
insertion order of the `result_map` dictionary in the v3 implementation;
services.py forms the same set). -/
def unionIds (a b : List Nat) : List Nat :=
  a ++ b.filter (fun id => decide (id ∉ a))

/-- Score fusion over the union of chunk ids: each id gets
`alpha * vectorScore + (1 - alpha) * bm25Score`, a missing entry counting
as 0.  No truncation happens here. -/
def combineScores (vectorScores bm25Scores : List (Nat × ℚ)) (alpha : ℚ) : List (Nat × ℚ) :=
  (unionIds (vectorScores.map Prod.fst) (bm25Scores.map Prod.fst)).map
    (fun id => (id, alpha * lookupScore vectorScores id + (1 - alpha) * lookupScore bm25Scores id))

/-- Descending-by-score order on fused `(chunk id, score)` entries; the
Python `sort(key=lambda x: x[1], reverse=True)` is a stable sort by this
relation. -/
def scoreGE (a b : Nat × ℚ) : Prop := b.2 ≤ a.2

instance : DecidableRel scoreGE :=
  fun a b => inferInstanceAs (Decidable (b.2 ≤ a.2))

instance : IsTotal (Nat × ℚ) scoreGE :=
  ⟨fun a b => le_total b.2 a.2⟩

instance : IsTrans (Nat × ℚ) scoreGE :=
  ⟨fun _ _ _ h1 h2 => le_trans h2 h1⟩

/-- The full fusion step `_combine_and_rerank`: normalize both candidate
lists, fuse over the union of chunk ids, and stably sort descending by
fused score. -/
def fuseResults (vectorResults bm25Results : List (Chunk × ℚ)) (alpha : ℚ) : List (Nat × ℚ) :=
  List.insertionSort scoreGE
    (combineScores (normalizeScores vectorResults) (normalizeScores bm25Results) alpha)

/-! ## Hybrid retrieval (`_vector_search`, `_bm25_search`,
`_retriever_agent`).  The cosine-similarity and BM25 numerics live in the
external numpy and rank-bm25 collaborators; they enter the model as the
score functions `sim` and `bm25`. -/

/-- Descending-by-score order on scored candidates. -/
def candGE (a b : Chunk × ℚ) : Prop := b.2 ≤ a.2

instance : DecidableRel candGE :=
  fun a b => inferInstanceAs (Decidable (b.2 ≤ a.2))

/-- Vector similarity search: score every chunk and stably sort
descending. -/
def vectorSearch (sim : Chunk → ℚ) (corpus : List Chunk) : List (Chunk × ℚ) :=
  List.insertionSort candGE (corpus.map (fun c => (c, sim c)))

/-- BM25 keyword search: score every chunk and stably sort descending. -/
def bm25Search (score : Chunk → ℚ) (corpus : List Chunk) : List (Chunk × ℚ) :=
  List.insertionSort candGE (corpus.map (fun c => (c, score c)))

/-- The `chunk_dict` lookup from chunk id back to the chunk object. -/
def findChunk (results : List (Chunk × ℚ)) (id : Nat) : Option Chunk :=
  match results.find? (fun p => p.1.chunkId == id) with
  | some p => some p.1
  | none => none

/-- Formatting of one retrieved chunk into the state dictionary. -/
def mkRetrievedChunk (c : Chunk) (score : ℚ) : RetrievedChunk :=
  { chunk_id := c.chunkId, document_id := c.documentId,
    document_title := c.documentTitle, chunk_index := c.index,
    page_number := c.pageNumber, text := c.text, score := score }

/-- The retriever agent: on an empty corpus of Ready chunks it records the
retrieval error and an empty result list and returns without searching;
otherwise it runs both searches, fuses, takes the top K and formats the
state dictionaries. -/
def retrieverAgent (sim bm25 : Chunk → ℚ) (topK : Nat) (alpha : ℚ)
    (corpus : List Chunk) (st : AgentState) : AgentState :=
  if corpus = [] then
    { st with error := "No documents available for search", retrieved_chunks := [] }
  else
    let vectorResults := vectorSearch sim corpus
    let bm25Results := bm25Search bm25 corpus
    let combined := fuseResults vectorResults bm25Results alpha
    let top := combined.take topK
    let retrieved := top.filterMap (fun p =>
      match findChunk (vectorResults ++ bm25Results) p.1 with
      | some c => some (mkRetrievedChunk c p.2)
      | none => none)
    { st with retrieved_chunks := retrieved,
              metadata := st.metadata ++ [("num_retrieved", toString retrieved.length)] }

/-! ## Answer synthesis (`_reasoning_agent`, services.py lines 225-300) -/

/-- The fixed fallback answer returned when no chunks were retrieved. -/
def fallbackAnswer : String :=
  "I couldn't find relevant information in the uploaded documents to answer your question. Could you please rephrase or ask something else?"

/-- Python `page_number or 'N/A'`: `None` and the falsy page 0 both render
as N/A. -/
def pageStr (p : Option Nat) : String :=
  match p with
  | some n => if n = 0 then "N/A" else toString n
  | none => "N/A"

/-- One block of the grounding context. -/
def contextPart (idx : Nat) (ch : RetrievedChunk) : String :=
  "[Document " ++ toString (idx + 1) ++ ": " ++ ch.document_title ++ ", Page "
    ++ pageStr ch.page_number ++ "]\n" ++ ch.text ++ "\n"

/-- The grounding context: all retrieved chunks in order. -/
def buildContext (chunks : List RetrievedChunk) : String :=
  String.intercalate "\n\n" (chunks.enum.map (fun p => contextPart p.1 p.2))

/-- The optional chat-history block: the last four turns, each rendered as
capitalized role, colon, content. -/
def historyContext (hist : List (String × String)) : String :=
  if hist = [] then ""
  else
    let recent := hist.drop (hist.length - 4)
    "\nPrevious conversation:\n"
      ++ String.intercalate "\n" (recent.map (fun m => capitalizeStr m.1 ++ ": " ++ m.2))
      ++ "\n"

/-- The grounded instruction prompt handed to the generative model. -/
def buildPrompt (st : AgentState) : String :=
  "You are a helpful AI assistant that answers questions based strictly on the provided document context.\n\nContext from documents:\n"
    ++ buildContext st.retrieved_chunks ++ "\n" ++ historyContext st.chat_history
    ++ "\n\nUser Question: " ++ st.query
    ++ "\n\n\nInstructions:\n1. Analyze the provided context carefully\n2. Generate a concise, accurate answer based ONLY on the information in the context\n3. If the context doesn't contain enough information, say so\n4. Include specific references to which documents support your answer\n5. Be clear and direct in your response\n\nAnswer:"

/-- One citation per chunk used in the prompt: the snippet is always the
first 200 code points of the chunk text with an appended ellipsis marker
(the inline slice in `_reasoning_agent`). -/
def mkCitation (ch : RetrievedChunk) : Citation :=
  { document_id := ch.document_id, document_title := ch.document_title,
    chunk_index := ch.chunk_index, page := ch.page_number,
    snippet := String.mk (ch.text.data.take 200) ++ "..." }

/-- The reasoning agent.  The generative model is the parameter `llm`;
`Except.error` models a raised provider exception carrying its message. -/
def reasoningAgent (llm : String → Except String String) (st : AgentState) : AgentState :=
  if st.retrieved_chunks = [] then
    { st with answer := fallbackAnswer, citations := [] }
  else
    match llm (buildPrompt st) with
    | Except.ok answer =>
      { st with answer := answer,
                citations := st.retrieved_chunks.map mkCitation,
                metadata := st.metadata ++ [("agent_type", "reasoning")] }
    | Except.error e =>
      { st with error := "Reasoning error: " ++ e,
                answer := "I encountered an error while generating the answer.",
                citations := [] }

/-! ## Utility tasks (`_utility_agent`) -/

/-- The fixed instruction template per utility intent; `none` for an
unknown intent. -/
def utilityPrompt (intent text : String) : Option String :=
  if intent = "SUMMARIZE" then
    some ("Summarize the following document text concisely:\n\n" ++ text
      ++ "\n\nProvide a clear, concise summary.")
  else if intent = "TRANSLATE" then
    some ("Translate the following text to English if it's Persian, or Persian if it's English:\n\n"
      ++ text)
  else if intent = "CHECKLIST" then
    some ("Create a structured checklist or task list based on the following document text:\n\n"
      ++ text)
  else none

/-- The utility agent: summarize, translate or checklist over the document
content when present, else over the raw query. -/
def utilityAgent (llm : String → Except String String) (st : AgentState) : AgentState :=
  let textToProcess := if st.document_content = "" then st.query else st.document_content
  match utilityPrompt st.intent textToProcess with
  | none => { st with error := "Unknown utility intent: " ++ st.intent }
  | some prompt =>
    match llm prompt with
    | Except.ok a =>
      { st with answer := a, citations := [],
                metadata := st.metadata ++ [("agent_type", "utility"), ("utility_function", strLower st.intent)] }
    | Except.error e =>
      { st with error := "Utility agent error: " ++ e,
                answer := "I encountered an error processing your request." }

/-! ## Orchestrator (`_build_graph` wiring and `process_query`) -/

/-- The initial state created by `process_query`. -/
def initialState (query : String) (chatHistory : List (String × String)) : AgentState :=
  { query := query, chat_history := chatHistory, intent := "",
    retrieved_chunks := [], answer := "", citations := [], metadata := [],
    error := "", document_content := "" }

/-- The compiled workflow graph: router, then by the conditional edge
either retriever followed unconditionally by reasoner, or the utility
agent. -/
def runGraph (sim bm25 : Chunk → ℚ) (llm : String → Except String String)
    (topK : Nat) (alpha : ℚ) (corpus : List Chunk) (st : AgentState) : AgentState :=
  if routeDecision (routerAgent st) = "retriever" then
    reasoningAgent llm (retrieverAgent sim bm25 topK alpha corpus (routerAgent st))
  else if routeDecision (routerAgent st) = "utility" then
    utilityAgent llm (routerAgent st)
  else routerAgent st

/-- The public contract `process_query`: run the graph on a fresh state
and project the uniform response record. -/
def processQuery (sim bm25 : Chunk → ℚ) (llm : String → Except String String)
    (topK : Nat) (alpha : ℚ) (corpus : List Chunk)
    (query : String) (chatHistory : List (String × String)) : RAGResponse :=
  { answer := (runGraph sim bm25 llm topK alpha corpus (initialState query chatHistory)).answer,
    citations := (runGraph sim bm25 llm topK alpha corpus (initialState query chatHistory)).citations,
    metadata := (runGraph sim bm25 llm topK alpha corpus (initialState query chatHistory)).metadata,
    error := (runGraph sim bm25 llm topK alpha corpus (initialState query chatHistory)).error }

/-! ## Domain snippet helper (`DocumentChunk.get_snippet`, chunk.py) -/

/-- The domain entity helper: the unmodified text when it fits, else the
first `maxLength` code points with an appended ellipsis marker. -/
def getSnippet (text : String) (maxLength : Nat) : String :=
  if text.length ≤ maxLength then text
  else String.mk (text.data.take maxLength) ++ "..."

/-! ## Diversity reranker (`Reranker`, v3 reranker.py) -/

/-- A retrieval result as fed to the v3 reranker: a chunk with its fused
score. -/
structure RetrievalResult where
  chunk : Chunk
  score : ℚ
deriving DecidableEq

/-- Diversity of a candidate against the already selected results:
one over one plus the number of selected results from the same document
(`_calculate_diversity`). -/
def calculateDiversity (candidate : RetrievalResult) (selected : List RetrievalResult) : ℚ :=
  if selected = [] then 1
  else
    let sameDocCount :=
      (selected.filter (fun s => s.chunk.documentId == candidate.chunk.documentId)).length
    1 / (1 + (sameDocCount : ℚ))

/-- The combined selection score `0.7 * relevance + 0.3 * diversity`. -/
def combinedScore (selected : List RetrievalResult) (candidate : RetrievalResult) : ℚ :=
  7 / 10 * candidate.score + 3 / 10 * calculateDiversity candidate selected

/-- The inner candidate scan of `_diversity_rerank`: running best
candidate and best score, initialized to none and -1, updated on a
strictly greater combined score. -/
def findBestAux (selected : List RetrievalResult) :
    List RetrievalResult → Option RetrievalResult → ℚ → Option RetrievalResult
  | [], best, _ => best
  | c :: rest, best, bestScore =>
    if bestScore < combinedScore selected c then
      findBestAux selected rest (some c) (combinedScore selected c)
    else
      findBestAux selected rest best bestScore

/-- The best remaining candidate for the next slot. -/
def findBest (selected remaining : List RetrievalResult) : Option RetrievalResult :=
  findBestAux selected remaining none (-1)

/-- The while loop of `_diversity_rerank`, with explicit fuel (one unit
per removable candidate: the loop removes one remaining candidate per
iteration, so fuel equal to the initial remaining length is exact). -/
def diversityLoop (topK : Nat) : Nat → List RetrievalResult → List RetrievalResult → List RetrievalResult
  | 0, selected, _ => selected
  | fuel + 1, selected, remaining =>
    if selected.length < topK ∧ remaining ≠ [] then
      match findBest selected remaining with
      | some c => diversityLoop topK fuel (selected ++ [c]) (remaining.erase c)
      | none => selected
    else selected

/-- `_diversity_rerank`: pop the first result unconditionally, then fill
remaining slots by the greedy combined-score scan. -/
def diversityRerank (results : List RetrievalResult) (topK : Nat) : List RetrievalResult :=
  match results with
  | [] => []
  | r :: rest => diversityLoop topK rest.length [r] rest

/-- The configured `rerank_top_k` default (v3 settings). -/
def rerankTopKDefault : Nat := 3

/-- `Reranker.rerank`: empty input returns unchanged; a `topK` of 0 falls
back to the configured default through the Python falsy-default idiom
`top_k = top_k or settings.rerank_top_k`; an input no longer than the
effective top-k returns unchanged; otherwise the diversity selection
runs. -/
def rerank (results : List RetrievalResult) (topK : Nat) : List RetrievalResult :=
  if results = [] then results
  else if results.length ≤ (if topK = 0 then rerankTopKDefault else topK) then results
  else diversityRerank results (if topK = 0 then rerankTopKDefault else topK)

/-- Modelled from the spec: the greedy diversity-selection process of
design section 4.4 as a relation between the already selected list, the
remaining candidates and the final selection, following the words of the
claim: stop when K are selected or candidates are exhausted, otherwise
select some remaining candidate maximizing the combined score
`0.7 * relevance + 0.3 * diversity` and recurse.  This is the refinement
target the reranker is compared against. -/
inductive GreedySpec (K : Nat) :
    List RetrievalResult → List RetrievalResult → List RetrievalResult → Prop where
  | done_full : ∀ selected remaining, selected.length = K →
      GreedySpec K selected remaining selected
  | done_exhausted : ∀ selected, GreedySpec K selected [] selected
  | step : ∀ selected remaining out c, selected.length < K → c ∈ remaining →
      (∀ x ∈ remaining, combinedScore selected x ≤ combinedScore selected c) →
      GreedySpec K (selected ++ [c]) (remaining.erase c) out →
      GreedySpec K selected remaining out

/-! ## Demonstration values used by concrete instantiations -/

/-- A minimal demonstration chunk. -/
def demoChunk : Chunk :=
  { chunkId := 1, documentId := 1, documentTitle := "d", index := 0,
    pageNumber := none, text := "t" }

/-- A minimal retrieved-chunk dictionary with a short text. -/
def demoRetrieved : RetrievedChunk :=
  { chunk_id := 1, document_id := 1, document_title := "d", chunk_index := 0,
    page_number := none, text := "hi", score := 1 }

/-! ## Helper lemmas on running minima and maxima -/

lemma foldl_min_le_init (l : List ℚ) (a : ℚ) : l.foldl min a ≤ a := by
  induction l generalizing a with
  | nil => exact le_refl a
  | cons b t ih => exact le_trans (ih (min a b)) (min_le_left a b)

lemma foldl_min_le_mem : ∀ (l : List ℚ) (a x : ℚ), x ∈ l → l.foldl min a ≤ x := by
  intro l
  induction l with
  | nil => intro a x hx; cases hx
  | cons b t ih =>
    intro a x hx
    simp only [List.foldl_cons]
    rcases List.mem_cons.mp hx with h | h
    · subst h
      exact le_trans (foldl_min_le_init t (min a x)) (min_le_right a x)
    · exact ih (min a b) x h

lemma le_foldl_max_init (l : List ℚ) (a : ℚ) : a ≤ l.foldl max a := by
  induction l generalizing a with
  | nil => exact le_refl a
  | cons b t ih => exact le_trans (le_max_left a b) (ih (max a b))

lemma mem_le_foldl_max : ∀ (l : List ℚ) (a x : ℚ), x ∈ l → x ≤ l.foldl max a := by
  intro l
  induction l with
  | nil => intro a x hx; cases hx
  | cons b t ih =>
    intro a x hx
    simp only [List.foldl_cons]
    rcases List.mem_cons.mp hx with h | h
    · subst h
      exact le_trans (le_max_right a x) (le_foldl_max_init t (max a x))
    · exact ih (max a b) x h

lemma foldl_min_const : ∀ (l : List ℚ) (a : ℚ), (∀ x ∈ l, x = a) → l.foldl min a = a := by
  intro l
  induction l with
  | nil => intro a _; rfl
  | cons b t ih =>
    intro a h
    have hb : b = a := h b (List.mem_cons_self b t)
    subst hb
    simp only [List.foldl_cons, min_self]
    exact ih b (fun x hx => h x (List.mem_cons_of_mem b hx))

lemma foldl_max_const : ∀ (l : List ℚ) (a : ℚ), (∀ x ∈ l, x = a) → l.foldl max a = a := by
  intro l
  induction l with
  | nil => intro a _; rfl
  | cons b t ih =>
    intro a h
    have hb : b = a := h b (List.mem_cons_self b t)
    subst hb
    simp only [List.foldl_cons, max_self]
    exact ih b (fun x hx => h x (List.mem_cons_of_mem b hx))

/-- C1: for every non-empty candidate list, min-max normalization keeps
one entry per candidate in order (ids preserved), every normalized score
lies in the unit interval, and when all raw scores are equal (including a
single candidate) every normalized score is exactly 1; the division is
only taken on the branch whose denominator is nonzero. -/
theorem C1_normalization_range (results : List (Chunk × ℚ)) (hne : results ≠ []) :
    (normalizeScores results).map Prod.fst = results.map (fun p => p.1.chunkId) ∧
    (∀ p ∈ normalizeScores results, 0 ≤ p.2 ∧ p.2 ≤ 1) ∧
    ((∀ p ∈ results, ∀ q ∈ results, p.2 = q.2) →
      ∀ p ∈ normalizeScores results, p.2 = 1) := by
  obtain ⟨p, rest, rfl⟩ := List.exists_cons_of_ne_nil hne
  have hlo : ∀ q ∈ p :: rest, (rest.map Prod.snd).foldl min p.2 ≤ q.2 := by
    intro q hq
    rcases List.mem_cons.mp hq with h | h
    · subst h
      exact foldl_min_le_init _ q.2
    · exact foldl_min_le_mem _ p.2 q.2 (List.mem_map_of_mem Prod.snd h)
  have hhi : ∀ q ∈ p :: rest, q.2 ≤ (rest.map Prod.snd).foldl max p.2 := by
    intro q hq
    rcases List.mem_cons.mp hq with h | h
    · subst h
      exact le_foldl_max_init _ q.2
    · exact mem_le_foldl_max _ p.2 q.2 (List.mem_map_of_mem Prod.snd h)
  refine ⟨?_, ?_, ?_⟩
  · simp only [normalizeScores]
    split <;> (rw [List.map_map]; rfl)
  · intro q hq
    simp only [normalizeScores] at hq
    split at hq
    · rcases List.mem_map.mp hq with ⟨x, _, rfl⟩
      norm_num
    · rename_i hne2
      rcases List.mem_map.mp hq with ⟨x, hx, rfl⟩
      have h1 : (rest.map Prod.snd).foldl min p.2 ≤ x.2 := hlo x hx
      have h2 : x.2 ≤ (rest.map Prod.snd).foldl max p.2 := hhi x hx
      have hle : (rest.map Prod.snd).foldl min p.2 ≤ (rest.map Prod.snd).foldl max p.2 :=
        le_trans (hlo p (List.mem_cons_self _ _)) (hhi p (List.mem_cons_self _ _))
      have hlt : (rest.map Prod.snd).foldl min p.2 < (rest.map Prod.snd).foldl max p.2 :=
        lt_of_le_of_ne hle (fun h => hne2 h.symm)
    
      constructor
      · exact div_nonneg (by linarith) (by linarith)
      · rw [div_le_one (by linarith)]
        linarith
  · intro hall q hq
    have hconst : ∀ x ∈ rest.map Prod.snd, x = p.2 := by
      intro x hx
      rcases List.mem_map.mp hx with ⟨r, hr, rfl⟩
      exact hall r (List.mem_cons_of_mem _ hr) p (List.mem_cons_self _ _)
    have heq : (rest.map Prod.snd).foldl max p.2 = (rest.map Prod.snd).foldl min p.2 := by
      rw [foldl_max_const _ _ hconst, foldl_min_const _ _ hconst]
    simp only [normalizeScores, if_pos heq] at hq
    rcases List.mem_map.mp hq with ⟨x, _, rfl⟩
    rfl

/-- C1 witness: the theorem applied to a concrete single-candidate list. -/
theorem C1_normalization_range_witness :
    (normalizeScores [(demoChunk, (1 : ℚ) / 2)]).map Prod.fst
      = [(demoChunk, (1 : ℚ) / 2)].map (fun p => p.1.chunkId) :=
  (C1_normalization_range [(demoChunk, (1 : ℚ) / 2)] (by simp)).1

/-- C2: fused combination produces exactly one entry per chunk id of the
union of both lists (no truncation): the output ids are pairwise distinct,
an id appears exactly when it appears in one of the two lists, every fused
score is the weighted sum of the two looked-up normalized scores, and an
id missing from a list contributes 0 through the lookup default. -/
theorem C2_fusion_union (sem lex : List (Nat × ℚ)) (w : ℚ)
    (hw0 : 0 ≤ w) (hw1 : w ≤ 1)
    (hsem : (sem.map Prod.fst).Nodup) (hlex : (lex.map Prod.fst).Nodup) :
    ((combineScores sem lex w).map Prod.fst).Nodup ∧
    (∀ id : Nat, id ∈ (combineScores sem lex w).map Prod.fst ↔
      (id ∈ sem.map Prod.fst ∨ id ∈ lex.map Prod.fst)) ∧
    (∀ p ∈ combineScores sem lex w,
      p.2 = w * lookupScore sem p.1 + (1 - w) * lookupScore lex p.1) ∧
    (∀ id : Nat, id ∉ sem.map Prod.fst → lookupScore sem id = 0) := by
  have hfst : (combineScores sem lex w).map Prod.fst
      = unionIds (sem.map Prod.fst) (lex.map Prod.fst) := by
    unfold combineScores
    rw [List.map_map]
    exact List.map_id _
  refine ⟨?_, ?_, ?_, ?_⟩
  · rw [hfst]
    unfold unionIds
    refine List.Nodup.append hsem (List.Nodup.filter _ hlex) ?_
    intro id hida hidb
    have := List.of_mem_filter hidb
    simp only [decide_eq_true_eq] at this
    exact this hida
  · intro id
    rw [hfst]
    unfold unionIds
    simp only [List.mem_append, List.mem_filter, decide_eq_true_eq]
    constructor
    · rintro (h | ⟨h, _⟩)
      · exact Or.inl h
      · exact Or.inr h
    · rintro (h | h)
      · exact Or.inl h
      · by_cases ha : id ∈ sem.map Prod.fst
        · exact Or.inl ha
        · exact Or.inr ⟨h, ha⟩
  · intro q hq
    unfold combineScores at hq
    rcases List.mem_map.mp hq with ⟨id, _, rfl⟩
    rfl
  · intro id hid
    unfold lookupScore
    have hnone : sem.find? (fun q => q.1 == id) = none := by
      rw [List.find?_eq_none]
      intro q hq
      simp only [beq_iff_eq]
      intro h
      exact hid (List.mem_map.mpr ⟨q, hq, h⟩)
    rw [hnone]

/-- C2 witness: the theorem applied at concrete singleton lists and the
default weight. -/
theorem C2_fusion_union_witness :
    ((combineScores [(1, (1 : ℚ))] [(2, (1 : ℚ) / 2)] (7 / 10)).map Prod.fst).Nodup :=
  (C2_fusion_union [(1, (1 : ℚ))] [(2, (1 : ℚ) / 2)] (7 / 10)
    (by norm_num) (by norm_num) (by simp) (by simp)).1

/-- C9 counterexample: the citation built for a chunk whose text has at
most 200 characters still carries the ellipsis marker and so is not the
unmodified text; this contradicts the claim that the marker appears
exactly when the text is longer than 200 characters. -/
theorem C9_counterexample :
    (mkCitation demoRetrieved).snippet = "hi..." ∧
    demoRetrieved.text.length ≤ 200 ∧
    (mkCitation demoRetrieved).snippet ≠ demoRetrieved.text := by
  refine ⟨rfl, by decide, by decide⟩

/-- C9 amended: the citation snippet emitted by the reasoning agent is
always the first 200 characters of the chunk text with the ellipsis marker
appended (hence at most 203 characters, marker present even for short
texts); the domain helper get_snippet, by contrast, implements the
conditional behavior the claim describes: unmodified text without a
marker when the text has at most 200 characters, truncation with the
marker otherwise. -/
theorem C9_snippet (ch : RetrievedChunk) (text : String) :
    (mkCitation ch).snippet = String.mk (ch.text.data.take 200) ++ "..." ∧
    (mkCitation ch).snippet.length ≤ 203 ∧
    (text.length ≤ 200 → getSnippet text 200 = text) ∧
    (200 < text.length → getSnippet text 200 = String.mk (text.data.take 200) ++ "...") := by
  refine ⟨rfl, ?_, ?_, ?_⟩
  · have hlen : (mkCitation ch).snippet.length
        = (ch.text.data.take 200 ++ ("..." : String).data).length := rfl
    rw [hlen, List.length_append]
    have h1 := List.length_take_le 200 ch.text.data
    have h2 : (("..." : String).data).length = 3 := rfl
    omega
  · intro h
    unfold getSnippet
    rw [if_pos h]
  · intro h
    unfold getSnippet
    rw [if_neg (by omega)]

/-- C9 amended witness: the theorem applied at a concrete chunk and text. -/
theorem C9_snippet_witness :
    getSnippet "hi" 200 = "hi" :=
  (C9_snippet demoRetrieved "hi").2.2.1 (by decide)


/-- A demonstration state holding one retrieved chunk. -/
def demoState : AgentState :=
  { initialState "q" [] with retrieved_chunks := [demoRetrieved] }

/-- C3: the router tests the lower-cased query against the four keyword
sets in fixed priority order SUMMARIZE, TRANSLATE, CHECKLIST, default
RAG_QUERY (the ANSWER intent), the first matching set winning; the final
conjunct instantiates the multi-category example: a query containing both
a summarize and a checklist trigger classifies as SUMMARIZE. -/
theorem C3_router_priority (st : AgentState) :
    ((routerAgent st).intent = "SUMMARIZE" ↔
      matchesAny (strLower st.query) summarizeKeywords = true) ∧
    ((routerAgent st).intent = "TRANSLATE" ↔
      (matchesAny (strLower st.query) summarizeKeywords = false ∧
       matchesAny (strLower st.query) translateKeywords = true)) ∧
    ((routerAgent st).intent = "CHECKLIST" ↔
      (matchesAny (strLower st.query) summarizeKeywords = false ∧
       matchesAny (strLower st.query) translateKeywords = false ∧
       matchesAny (strLower st.query) checklistKeywords = true)) ∧
    ((routerAgent st).intent = "RAG_QUERY" ↔
      (matchesAny (strLower st.query) summarizeKeywords = false ∧
       matchesAny (strLower st.query) translateKeywords = false ∧
       matchesAny (strLower st.query) checklistKeywords = false)) ∧
    (routerAgent (initialState "Please summarize the document and create a checklist" [])).intent
      = "SUMMARIZE" := by
  refine ⟨?_, ?_, ?_, ?_, by decide⟩ <;>
  · show (if matchesAny (strLower st.query) summarizeKeywords then "SUMMARIZE"
      else if matchesAny (strLower st.query) translateKeywords then "TRANSLATE"
      else if matchesAny (strLower st.query) checklistKeywords then "CHECKLIST"
      else "RAG_QUERY") = _ ↔ _
    cases h1 : matchesAny (strLower st.query) summarizeKeywords <;>
      cases h2 : matchesAny (strLower st.query) translateKeywords <;>
        cases h3 : matchesAny (strLower st.query) checklistKeywords <;>
          simp

/-- C3 witness: the router priority characterization applied at a concrete
state whose query holds triggers of two categories. -/
theorem C3_router_priority_witness :
    (routerAgent (initialState "summarize this checklist" [])).intent = "SUMMARIZE" :=
  (C3_router_priority (initialState "summarize this checklist" [])).1.mpr (by decide)

/-- C5: with an empty corpus of Ready chunks and a query routed to the
retrieval branch, the pipeline records the retrieval error in the state
without raising, both search functions return empty candidate lists, the
workflow still reaches the synthesizer, which returns the fixed fallback
answer with no citations, and the response does not depend on the
generative model (no model call is made). -/
theorem C5_empty_corpus (sim bm25 : Chunk → ℚ) (llm1 llm2 : String → Except String String)
    (topK : Nat) (alpha : ℚ) (query : String) (hist : List (String × String))
    (h1 : matchesAny (strLower query) summarizeKeywords = false)
    (h2 : matchesAny (strLower query) translateKeywords = false)
    (h3 : matchesAny (strLower query) checklistKeywords = false) :
    (processQuery sim bm25 llm1 topK alpha [] query hist).error
      = "No documents available for search" ∧
    (processQuery sim bm25 llm1 topK alpha [] query hist).answer = fallbackAnswer ∧
    (processQuery sim bm25 llm1 topK alpha [] query hist).citations = [] ∧
    processQuery sim bm25 llm1 topK alpha [] query hist
      = processQuery sim bm25 llm2 topK alpha [] query hist ∧
    vectorSearch sim [] = [] ∧ bm25Search bm25 [] = [] := by
  have hintent : (routerAgent (initialState query hist)).intent = "RAG_QUERY" := by
    show (if matchesAny (strLower query) summarizeKeywords then "SUMMARIZE"
      else if matchesAny (strLower query) translateKeywords then "TRANSLATE"
      else if matchesAny (strLower query) checklistKeywords then "CHECKLIST"
      else "RAG_QUERY") = "RAG_QUERY"
    rw [h1, h2, h3]
    rfl
  have hdec : routeDecision (routerAgent (initialState query hist)) = "retriever" := by
    unfold routeDecision
    rw [hintent]
    rfl
  have hrun : ∀ llm : String → Except String String,
      runGraph sim bm25 llm topK alpha [] (initialState query hist)
        = { routerAgent (initialState query hist) with
              error := "No documents available for search",
              retrieved_chunks := [], answer := fallbackAnswer, citations := [] } := by
    intro llm
    unfold runGraph
    rw [hdec, if_pos rfl]
    unfold retrieverAgent
    rw [if_pos rfl]
    unfold reasoningAgent
    rw [if_pos rfl]
  refine ⟨?_, ?_, ?_, ?_, rfl, rfl⟩
  · show (runGraph sim bm25 llm1 topK alpha [] (initialState query hist)).error = _
    rw [hrun llm1]
  · show (runGraph sim bm25 llm1 topK alpha [] (initialState query hist)).answer = _
    rw [hrun llm1]
  · show (runGraph sim bm25 llm1 topK alpha [] (initialState query hist)).citations = _
    rw [hrun llm1]
  · unfold processQuery
    rw [hrun llm1, hrun llm2]

/-- C5 witness: the theorem applied at a concrete keyword-free query,
constant score functions and a concrete model stub. -/
theorem C5_empty_corpus_witness :
    (processQuery (fun _ => 0) (fun _ => 0) (fun _ => Except.ok "a") 5 (7 / 10) []
      "what is the revenue" []).answer = fallbackAnswer :=
  (C5_empty_corpus (fun _ => 0) (fun _ => 0) (fun _ => Except.ok "a") (fun _ => Except.ok "b")
    5 (7 / 10) "what is the revenue" [] (by decide) (by decide) (by decide)).2.1

/-- C6: on a successful model call the synthesizer emits exactly one
citation per reranked chunk, in order, each carrying that chunk's document
id, title, chunk index and page; hence no citation references a chunk
absent from the list passed in. -/
theorem C6_citation_grounding (llm : String → Except String String) (st : AgentState)
    (hne : st.retrieved_chunks ≠ []) (ans : String)
    (hok : llm (buildPrompt st) = Except.ok ans) :
    (reasoningAgent llm st).citations = st.retrieved_chunks.map mkCitation ∧
    ∀ cit ∈ (reasoningAgent llm st).citations, ∃ ch ∈ st.retrieved_chunks,
      cit.document_id = ch.document_id ∧ cit.document_title = ch.document_title ∧
      cit.chunk_index = ch.chunk_index ∧ cit.page = ch.page_number := by
  have hcit : (reasoningAgent llm st).citations = st.retrieved_chunks.map mkCitation := by
    unfold reasoningAgent
    rw [if_neg hne, hok]
  refine ⟨hcit, ?_⟩
  intro cit hc
  rw [hcit] at hc
  rcases List.mem_map.mp hc with ⟨ch, hch, rfl⟩
  exact ⟨ch, hch, rfl, rfl, rfl, rfl⟩

/-- C6 witness: the theorem applied at a concrete one-chunk state and a
concrete succeeding model stub. -/
theorem C6_citation_grounding_witness :
    (reasoningAgent (fun _ => Except.ok "ok") demoState).citations
      = demoState.retrieved_chunks.map mkCitation :=
  (C6_citation_grounding (fun _ => Except.ok "ok") demoState (by simp [demoState]) "ok" rfl).1


/-! ## Evaluation lemmas for the score lookup -/

lemma lookupScore_nil (id : Nat) : lookupScore [] id = 0 := rfl

lemma lookupScore_cons_self (id : Nat) (s : ℚ) (rest : List (Nat × ℚ)) :
    lookupScore ((id, s) :: rest) id = s := by
  unfold lookupScore
  rw [List.find?_cons_of_pos _ (by simp)]

lemma lookupScore_cons_ne (p : Nat × ℚ) (rest : List (Nat × ℚ)) (id : Nat) (h : p.1 ≠ id) :
    lookupScore (p :: rest) id = lookupScore rest id := by
  unfold lookupScore
  rw [List.find?_cons_of_neg _ (by simp [h])]

/-! ## Concrete chunks for the fusion scenarios -/

/-- Tied-score chunk with the larger chunk id, listed first. -/
def tieChunkA : Chunk :=
  { chunkId := 2, documentId := 1, documentTitle := "d", index := 0,
    pageNumber := none, text := "a" }

/-- Tied-score chunk with the smaller chunk id, listed second. -/
def tieChunkB : Chunk :=
  { chunkId := 1, documentId := 1, documentTitle := "d", index := 1,
    pageNumber := none, text := "b" }

/-- C7 counterexample: two candidates with equal raw scores (hence equal
fused scores) keep their input order after fusion, whichever that order
is: the same candidate set fed in the two possible orders produces the two
opposite output orders, so ties are not broken by chunk id in either
direction. -/
theorem C7_counterexample :
    (fuseResults [(tieChunkA, 5), (tieChunkB, 5)] [] (7 / 10)).map Prod.fst = [2, 1] ∧
    (fuseResults [(tieChunkB, 5), (tieChunkA, 5)] [] (7 / 10)).map Prod.fst = [1, 2] ∧
    (∀ p ∈ fuseResults [(tieChunkA, 5), (tieChunkB, 5)] [] (7 / 10), p.2 = 7 / 10) := by
  have hA : fuseResults [(tieChunkA, 5), (tieChunkB, 5)] [] (7 / 10)
      = [(2, 7 / 10), (1, 7 / 10)] := by
    norm_num [fuseResults, combineScores, normalizeScores, unionIds,
      lookupScore_nil, lookupScore_cons_self, lookupScore_cons_ne,
      tieChunkA, tieChunkB, List.insertionSort, List.orderedInsert, scoreGE,
      min_def, max_def, -Prod.mk_one_one]
  have hB : fuseResults [(tieChunkB, 5), (tieChunkA, 5)] [] (7 / 10)
      = [(1, 7 / 10), (2, 7 / 10)] := by
    norm_num [fuseResults, combineScores, normalizeScores, unionIds,
      lookupScore_nil, lookupScore_cons_self, lookupScore_cons_ne,
      tieChunkA, tieChunkB, List.insertionSort, List.orderedInsert, scoreGE,
      min_def, max_def, -Prod.mk_one_one]
  refine ⟨by rw [hA]; rfl, by rw [hB]; rfl, ?_⟩
  intro p hp
  rw [hA] at hp
  rcases List.mem_cons.mp hp with h | h
  · rw [h]
  · rw [List.mem_singleton.mp h]

/-- C7 amended: fused results are sorted descending by fused score; the
output is a permutation of the fused union, and candidates with equal
fused scores keep their combination order (stable sort) rather than being
reordered by chunk id; the ordering is a pure function of the inputs, so
identical inputs give identical output. -/
theorem C7_fusion_determinism (vec bm : List (Chunk × ℚ)) (alpha : ℚ) :
    List.Sorted scoreGE (fuseResults vec bm alpha) ∧
    (fuseResults vec bm alpha).Perm
      (combineScores (normalizeScores vec) (normalizeScores bm) alpha) ∧
    (∀ x y : Nat × ℚ, x.2 = y.2 →
      List.Sublist [x, y] (combineScores (normalizeScores vec) (normalizeScores bm) alpha) →
      List.Sublist [x, y] (fuseResults vec bm alpha)) := by
  refine ⟨List.sorted_insertionSort scoreGE _, List.perm_insertionSort scoreGE _, ?_⟩
  intro x y hxy hsub
  exact List.pair_sublist_insertionSort (le_of_eq hxy.symm) hsub

/-- C7 amended witness: sortedness of a concrete fusion output. -/
theorem C7_fusion_determinism_witness :
    List.Sorted scoreGE (fuseResults [(tieChunkA, 5), (tieChunkB, 5)] [] (7 / 10)) :=
  (C7_fusion_determinism [(tieChunkA, 5), (tieChunkB, 5)] [] (7 / 10)).1

/-! ## Scenario B: 4 chunks across 2 documents -/

def sChunk1 : Chunk :=
  { chunkId := 1, documentId := 1, documentTitle := "dA", index := 0,
    pageNumber := none, text := "c1" }

def sChunk2 : Chunk :=
  { chunkId := 2, documentId := 1, documentTitle := "dA", index := 1,
    pageNumber := none, text := "c2" }

def sChunk3 : Chunk :=
  { chunkId := 3, documentId := 2, documentTitle := "dB", index := 0,
    pageNumber := none, text := "c3" }

def sChunk4 : Chunk :=
  { chunkId := 4, documentId := 2, documentTitle := "dB", index := 1,
    pageNumber := none, text := "c4" }

/-- Semantic candidate list of scenario B: raw scores
0.95, 0.9, 0.4, 0.3. -/
def semB : List (Chunk × ℚ) :=
  [(sChunk1, 19 / 20), (sChunk2, 9 / 10), (sChunk3, 2 / 5), (sChunk4, 3 / 10)]

/-- Lexical candidate list of scenario B: raw scores 2, 2, 2, 0. -/
def lexB : List (Chunk × ℚ) :=
  [(sChunk1, 2), (sChunk2, 2), (sChunk3, 2), (sChunk4, 0)]

lemma normalizeScores_semB :
    normalizeScores semB = [(1, 1), (2, 12 / 13), (3, 2 / 13), (4, 0)] := by
  norm_num [normalizeScores, semB, sChunk1, sChunk2, sChunk3, sChunk4, min_def, max_def]

lemma normalizeScores_lexB :
    normalizeScores lexB = [(1, 1), (2, 1), (3, 1), (4, 0)] := by
  norm_num [normalizeScores, lexB, sChunk1, sChunk2, sChunk3, sChunk4, min_def, max_def]

lemma combineScores_scenB :
    combineScores [(1, 1), (2, 12 / 13), (3, 2 / 13), (4, 0)]
      [(1, 1), (2, 1), (3, 1), (4, 0)] (7 / 10)
      = [(1, 1), (2, 123 / 130), (3, 53 / 130), (4, 0)] := by
  norm_num [combineScores, unionIds,
    lookupScore_nil, lookupScore_cons_self, lookupScore_cons_ne, -Prod.mk_one_one]

lemma fuseResults_scenB :
    fuseResults semB lexB (7 / 10) = [(1, 1), (2, 123 / 130), (3, 53 / 130), (4, 0)] := by
  unfold fuseResults
  rw [normalizeScores_semB, normalizeScores_lexB, combineScores_scenB]
  norm_num [List.insertionSort, List.orderedInsert, scoreGE]

/-- C8 counterexample: on scenario B the exact min-max normalization of
the semantic scores gives the second chunk (0.9 - 0.3) / (0.95 - 0.3)
= 12/13, approximately 0.923, not the claimed 0.846 (off by far more than
any rounding tolerance of 0.01), and the second fused score is
0.7 * 12/13 + 0.3 = 123/130, approximately 0.946, not the claimed
0.892. -/
theorem C8_counterexample :
    (normalizeScores semB).map Prod.snd = [1, 12 / 13, 2 / 13, 0] ∧
    ¬ (|12 / 13 - (846 / 1000 : ℚ)| < 1 / 100) ∧
    (fuseResults semB lexB (7 / 10)).map Prod.snd = [1, 123 / 130, 53 / 130, 0] ∧
    ¬ (|123 / 130 - (892 / 1000 : ℚ)| < 1 / 100) := by
  refine ⟨by rw [normalizeScores_semB]; rfl, ?_, by rw [fuseResults_scenB]; rfl, ?_⟩
  · rw [abs_sub_lt_iff]
    norm_num
  · rw [abs_sub_lt_iff]
    norm_num

/-- C8 amended: on scenario B with weight 0.7 the exact normalized
semantic scores are 1, 12/13 (approximately 0.923), 2/13 (approximately
0.154) and 0, the normalized lexical scores are 1, 1, 1, 0, the fused
scores are 1, 123/130 (approximately 0.946), 53/130 (approximately 0.408)
and 0, and the final ranking keeps the given index order. -/
theorem C8_scenario :
    normalizeScores semB = [(1, 1), (2, 12 / 13), (3, 2 / 13), (4, 0)] ∧
    normalizeScores lexB = [(1, 1), (2, 1), (3, 1), (4, 0)] ∧
    fuseResults semB lexB (7 / 10) = [(1, 1), (2, 123 / 130), (3, 53 / 130), (4, 0)] :=
  ⟨normalizeScores_semB, normalizeScores_lexB, fuseResults_scenB⟩


/-! ## Reranker lemmas -/

lemma calculateDiversity_pos (candidate : RetrievalResult) (selected : List RetrievalResult) :
    0 < calculateDiversity candidate selected := by
  unfold calculateDiversity
  split
  · norm_num
  · refine div_pos one_pos ?_
    have h : (0 : ℚ) ≤ ((selected.filter
        (fun s => s.chunk.documentId == candidate.chunk.documentId)).length : ℚ) :=
      Nat.cast_nonneg _
    linarith

lemma combinedScore_gt_neg_one (selected : List RetrievalResult) {c : RetrievalResult}
    (hc : 0 ≤ c.score) : -1 < combinedScore selected c := by
  unfold combinedScore
  have h1 : (0 : ℚ) ≤ 7 / 10 * c.score := mul_nonneg (by norm_num) hc
  have h2 : (0 : ℚ) < 3 / 10 * calculateDiversity c selected :=
    mul_pos (by norm_num) (calculateDiversity_pos c selected)
  linarith

lemma findBestAux_cases (sel : List RetrievalResult) :
    ∀ (rem : List RetrievalResult) (best : Option RetrievalResult) (bs : ℚ),
      (findBestAux sel rem best bs = best ∧ ∀ x ∈ rem, combinedScore sel x ≤ bs) ∨
      (∃ c, c ∈ rem ∧ findBestAux sel rem best bs = some c ∧ bs < combinedScore sel c ∧
        ∀ x ∈ rem, combinedScore sel x ≤ combinedScore sel c) := by
  intro rem
  induction rem with
  | nil =>
    intro best bs
    exact Or.inl ⟨rfl, by simp⟩
  | cons c rest ih =>
    intro best bs
    by_cases h : bs < combinedScore sel c
    · have hunf : findBestAux sel (c :: rest) best bs
          = findBestAux sel rest (some c) (combinedScore sel c) := by
        simp only [findBestAux]
        rw [if_pos h]
      rcases ih (some c) (combinedScore sel c) with ⟨heq, hall⟩ | ⟨d, hd, heq, hgt, hall⟩
      · right
        refine ⟨c, List.mem_cons_self _ _, hunf.trans heq, h, ?_⟩
        intro x hx
        rcases List.mem_cons.mp hx with hx | hx
        · subst hx
          exact le_refl _
        · exact hall x hx
      · right
        refine ⟨d, List.mem_cons_of_mem _ hd, hunf.trans heq, lt_trans h hgt, ?_⟩
        intro x hx
        rcases List.mem_cons.mp hx with hx | hx
        · subst hx
          exact le_of_lt hgt
        · exact hall x hx
    · have hunf : findBestAux sel (c :: rest) best bs = findBestAux sel rest best bs := by
        simp only [findBestAux]
        rw [if_neg h]
      push_neg at h
      rcases ih best bs with ⟨heq, hall⟩ | ⟨d, hd, heq, hgt, hall⟩
      · left
        refine ⟨hunf.trans heq, ?_⟩
        intro x hx
        rcases List.mem_cons.mp hx with hx | hx
        · subst hx
          exact h
        · exact hall x hx
      · right
        refine ⟨d, List.mem_cons_of_mem _ hd, hunf.trans heq, hgt, ?_⟩
        intro x hx
        rcases List.mem_cons.mp hx with hx | hx
        · subst hx
          exact le_trans h (le_of_lt hgt)
        · exact hall x hx

lemma findBest_mem {sel rem : List RetrievalResult} {c : RetrievalResult}
    (h : findBest sel rem = some c) : c ∈ rem := by
  rcases findBestAux_cases sel rem none (-1) with ⟨heq, _⟩ | ⟨d, hd, heq, _, _⟩
  · rw [findBest, heq] at h
    cases h
  · rw [findBest, heq] at h
    injection h with h
    subst h
    exact hd

lemma findBest_spec {sel rem : List RetrievalResult} (hne : rem ≠ [])
    (hgt : ∀ x ∈ rem, -1 < combinedScore sel x) :
    ∃ c, findBest sel rem = some c ∧ c ∈ rem ∧
      ∀ x ∈ rem, combinedScore sel x ≤ combinedScore sel c := by
  rcases findBestAux_cases sel rem none (-1) with ⟨_, hall⟩ | ⟨c, hc, heq, _, hall⟩
  · obtain ⟨y, rest, rfl⟩ := List.exists_cons_of_ne_nil hne
    exact absurd (hall y (List.mem_cons_self _ _))
      (not_le.mpr (hgt y (List.mem_cons_self _ _)))
  · exact ⟨c, heq, hc, hall⟩

lemma diversityLoop_greedySpec (K : Nat) :
    ∀ (fuel : Nat) (sel rem : List RetrievalResult),
      rem.length ≤ fuel → sel.length ≤ K → (∀ x ∈ rem, 0 ≤ x.score) →
      GreedySpec K sel rem (diversityLoop K fuel sel rem) := by
  intro fuel
  induction fuel with
  | zero =>
    intro sel rem hlen _ _
    have hrem : rem = [] := List.eq_nil_of_length_eq_zero (Nat.le_zero.mp hlen)
    subst hrem
    exact GreedySpec.done_exhausted sel
  | succ fuel ih =>
    intro sel rem hlen hsel hpos
    by_cases hcond : sel.length < K ∧ rem ≠ []
    · obtain ⟨hlt, hne⟩ := hcond
      obtain ⟨c, hfb, hc, hmax⟩ :=
        findBest_spec hne (fun x hx => combinedScore_gt_neg_one sel (hpos x hx))
      have hunf : diversityLoop K (fuel + 1) sel rem
          = diversityLoop K fuel (sel ++ [c]) (rem.erase c) := by
        simp only [diversityLoop]
        rw [if_pos ⟨hlt, hne⟩, hfb]
      rw [hunf]
      refine GreedySpec.step sel rem _ c hlt hc hmax ?_
      have herase := List.length_erase_of_mem hc
      have hrem1 : 1 ≤ rem.length := by
        cases rem
        · exact absurd rfl hne
        · simp
      refine ih (sel ++ [c]) (rem.erase c) (by omega) ?_ ?_
      · simp only [List.length_append, List.length_singleton]
        omega
      · intro x hx
        exact hpos x (List.mem_of_mem_erase hx)
    · have hunf : diversityLoop K (fuel + 1) sel rem = sel := by
        simp only [diversityLoop]
        rw [if_neg hcond]
      rw [hunf]
      by_cases hK : sel.length < K
      · have hrem : rem = [] := by
          by_contra hne
          exact hcond ⟨hK, hne⟩
        subst hrem
        exact GreedySpec.done_exhausted sel
      · exact GreedySpec.done_full sel rem (le_antisymm hsel (not_lt.mp hK))

lemma diversityLoop_subperm (K : Nat) :
    ∀ (fuel : Nat) (sel rem : List RetrievalResult),
      ∃ l, diversityLoop K fuel sel rem = sel ++ l ∧ l.Subperm rem := by
  intro fuel
  induction fuel with
  | zero =>
    intro sel rem
    exact ⟨[], by simp [diversityLoop], List.nil_subperm⟩
  | succ fuel ih =>
    intro sel rem
    by_cases hcond : sel.length < K ∧ rem ≠ []
    · cases hfb : findBest sel rem with
      | none =>
        refine ⟨[], ?_, List.nil_subperm⟩
        simp only [diversityLoop]
        rw [if_pos hcond, hfb]
        simp
      | some c =>
        have hc : c ∈ rem := findBest_mem hfb
        obtain ⟨l, hl, hsub⟩ := ih (sel ++ [c]) (rem.erase c)
        refine ⟨c :: l, ?_, ?_⟩
        · simp only [diversityLoop]
          rw [if_pos hcond, hfb]
          show diversityLoop K fuel (sel ++ [c]) (rem.erase c) = sel ++ c :: l
          rw [hl, List.append_assoc]
          rfl
        · exact ((List.subperm_cons c).mpr hsub).trans
            (List.perm_cons_erase hc).symm.subperm
    · refine ⟨[], ?_, List.nil_subperm⟩
      simp only [diversityLoop]
      rw [if_neg hcond]
      simp

lemma diversityLoop_length (K : Nat) :
    ∀ (fuel : Nat) (sel rem : List RetrievalResult),
      rem.length ≤ fuel → sel.length ≤ K → (∀ x ∈ rem, 0 ≤ x.score) →
      (diversityLoop K fuel sel rem).length = min K (sel.length + rem.length) := by
  intro fuel
  induction fuel with
  | zero =>
    intro sel rem hlen hsel _
    have hrem : rem = [] := List.eq_nil_of_length_eq_zero (Nat.le_zero.mp hlen)
    subst hrem
    simp only [diversityLoop, List.length_nil, Nat.add_zero]
    omega
  | succ fuel ih =>
    intro sel rem hlen hsel hpos
    by_cases hcond : sel.length < K ∧ rem ≠ []
    · obtain ⟨hlt, hne⟩ := hcond
      obtain ⟨c, hfb, hc, _⟩ :=
        findBest_spec hne (fun x hx => combinedScore_gt_neg_one sel (hpos x hx))
      have herase := List.length_erase_of_mem hc
      have hrem1 : 1 ≤ rem.length := by
        cases rem
        · exact absurd rfl hne
        · simp
      have hunf : diversityLoop K (fuel + 1) sel rem
          = diversityLoop K fuel (sel ++ [c]) (rem.erase c) := by
        simp only [diversityLoop]
        rw [if_pos ⟨hlt, hne⟩, hfb]
      rw [hunf, ih (sel ++ [c]) (rem.erase c) (by omega)
        (by simp only [List.length_append, List.length_singleton]; omega)
        (fun x hx => hpos x (List.mem_of_mem_erase hx))]
      simp only [List.length_append, List.length_singleton]
      omega
    · have hunf : diversityLoop K (fuel + 1) sel rem = sel := by
        simp only [diversityLoop]
        rw [if_neg hcond]
      rw [hunf]
      by_cases hK : sel.length < K
      · have hrem : rem = [] := by
          by_contra hne
          exact hcond ⟨hK, hne⟩
        subst hrem
        simp only [List.length_nil, Nat.add_zero]
        omega
      · have hsK : sel.length = K := le_antisymm hsel (not_lt.mp hK)
        omega

/-! ## Concrete reranker inputs -/

/-- A demonstration retrieval result with a fused score inside the unit
interval. -/
def demoResult : RetrievalResult := { chunk := demoChunk, score := 1 / 2 }

/-- Highest-scored result of the two-element reranker example. -/
def resA : RetrievalResult := { chunk := tieChunkA, score := 1 }

/-- Lower-scored result of the two-element reranker example. -/
def resB : RetrievalResult := { chunk := tieChunkB, score := 1 / 2 }

/-- C4 counterexample: at K equal to 0 the reranker does not run the
greedy selection the claim describes for lists longer than K: through the
falsy-default idiom the effective top-k becomes the configured default, so
a two-element list is returned whole, which is not a greedy selection
bounded by K. -/
theorem C4_counterexample :
    rerank [resA, resB] 0 = [resA, resB] ∧
    ¬ GreedySpec 0 [resA] [resB] (rerank [resA, resB] 0) := by
  have h : rerank [resA, resB] 0 = [resA, resB] := by
    simp [rerank, rerankTopKDefault]
  refine ⟨h, ?_⟩
  rw [h]
  intro hgs
  cases hgs with
  | step sel rem out c hlt => simp at hlt

/-- C4 amended: for every descending-sorted input with nonnegative fused
scores and every K of at least 1 (a K of 0 selects the configured default
instead), the reranker returns inputs of length at most K unchanged, and
on longer inputs it first selects the head, which carries a maximal fused
score, and then fills the remaining slots by the greedy combined-score
selection of the specification until K are selected or candidates run
out. -/
theorem C4_rerank_greedy (results : List RetrievalResult) (K : Nat) (hK : 1 ≤ K)
    (hsorted : results.Pairwise (fun a b => b.score ≤ a.score))
    (hpos : ∀ r ∈ results, 0 ≤ r.score) :
    (results.length ≤ K → rerank results K = results) ∧
    (K < results.length → ∀ top rest, results = top :: rest →
      (∀ x ∈ results, x.score ≤ top.score) ∧
      GreedySpec K [top] rest (rerank results K)) := by
  have hk0 : K ≠ 0 := by omega
  constructor
  · intro hlen
    unfold rerank
    by_cases hnil : results = []
    · rw [if_pos hnil]
    · rw [if_neg hnil]
      simp only [if_neg hk0]
      rw [if_pos hlen]
  · intro hlen top rest hres
    subst hres
    constructor
    · intro x hx
      rcases List.mem_cons.mp hx with h | h
      · subst h
        exact le_refl _
      · exact (List.pairwise_cons.mp hsorted).1 x h
    · have hrw : rerank (top :: rest) K = diversityLoop K rest.length [top] rest := by
        unfold rerank
        rw [if_neg (by simp)]
        simp only [if_neg hk0]
        rw [if_neg (by omega)]
        rfl
      rw [hrw]
      exact diversityLoop_greedySpec K rest.length [top] rest (le_refl _)
        (by simpa using hK) (fun x hx => hpos x (List.mem_cons_of_mem _ hx))

/-- C4 amended witness: the theorem applied at a concrete sorted
two-element input with K equal to 1. -/
theorem C4_rerank_greedy_witness :
    GreedySpec 1 [resA] [resB] (rerank [resA, resB] 1) :=
  ((C4_rerank_greedy [resA, resB] 1 (by norm_num)
      (by simp [List.pairwise_cons, resA, resB]; norm_num)
      (by intro r hr
          rcases List.mem_cons.mp hr with h | h
          · rw [h]; norm_num [resA]
          · rw [List.mem_singleton.mp h]; norm_num [resB])).2
    (by simp) resA [resB] rfl).2

/-- C10 counterexample: at K equal to 0 the reranker output length is not
the minimum of K and the input length: a one-element input is returned
whole because the falsy-default idiom replaces the 0 by the configured
default top-k. -/
theorem C10_counterexample :
    rerank [demoResult] 0 = [demoResult] ∧
    (rerank [demoResult] 0).length ≠ min 0 [demoResult].length := by
  have h : rerank [demoResult] 0 = [demoResult] := by
    simp [rerank, rerankTopKDefault]
  refine ⟨h, ?_⟩
  rw [h]
  simp

/-- C10 amended: for every input with nonnegative fused scores and every K
of at least 1, the reranker output is a duplicate-free selection from its
input (a sub-permutation: every output element occurs in the input and no
input occurrence is used twice), and for non-empty input its length is
exactly the minimum of K and the input length. -/
theorem C10_rerank_selection (results : List RetrievalResult) (K : Nat)
    (hpos : ∀ r ∈ results, 0 ≤ r.score) (hK : 1 ≤ K) :
    (rerank results K).Subperm results ∧
    (results ≠ [] → (rerank results K).length = min K results.length) := by
  have hk0 : K ≠ 0 := by omega
  unfold rerank
  by_cases hnil : results = []
  · rw [if_pos hnil]
    exact ⟨List.Subperm.refl _, fun h => absurd hnil h⟩
  · rw [if_neg hnil]
    simp only [if_neg hk0]
    by_cases hlen : results.length ≤ K
    · rw [if_pos hlen]
      refine ⟨List.Subperm.refl _, fun _ => ?_⟩
      omega
    · rw [if_neg hlen]
      obtain ⟨r, rest, rfl⟩ := List.exists_cons_of_ne_nil hnil
      constructor
      · obtain ⟨l, hl, hsub⟩ := diversityLoop_subperm K rest.length [r] rest
        show (diversityLoop K rest.length [r] rest).Subperm (r :: rest)
        rw [hl]
        exact (List.subperm_cons r).mpr hsub
      · intro _
        show (diversityLoop K rest.length [r] rest).length = min K (r :: rest).length
        rw [diversityLoop_length K rest.length [r] rest (le_refl _)
          (by simpa using hK) (fun x hx => hpos x (List.mem_cons_of_mem _ hx))]
        simp only [List.length_singleton, List.length_cons, List.length_nil]
        omega

/-- C10 amended witness: the theorem applied at a concrete singleton input
and K equal to 1. -/
theorem C10_rerank_selection_witness :
    (rerank [demoResult] 1).Subperm [demoResult] :=
  (C10_rerank_selection [demoResult] 1
    (by intro r hr
        rw [List.mem_singleton.mp hr]
        norm_num [demoResult]) (by norm_num)).1


end FileQA
